import Mathlib

/-!
Verification of the Hybrid Access-Control Engine of the HR_system_w_API_template
repository: endpoint path normalization, hybrid permission resolution,
permission middleware, scope validation, bulk permission replacement and the
hierarchy cycle guards.  Python strings are modelled as `List Char`; Python
`Optional` values as `Option`; the SQLAlchemy session as an explicit pair of
committed/current row lists.
-/

set_option maxHeartbeats 1000000

/-- Python strings, modelled as lists of characters. -/
abbrev Str := List Char

/-- Convenience coercion from Lean string literals. -/
def pyStr (s : String) : Str := s.toList

/-- Python `path.split("/")`: splits on every `'/'`, keeping empty segments;
the empty string splits to `[""]`. -/
def splitSlash : Str → List Str
  | [] => [[]]
  | c :: rest =>
    if c = '/' then [] :: splitSlash rest
    else
      match splitSlash rest with
      | [] => [[c]]
      | s :: ss => (c :: s) :: ss

/-- Python `"/".join(parts)`. -/
def joinSlash : List Str → Str
  | [] => []
  | [a] => a
  | a :: b :: rest => a ++ '/' :: joinSlash (b :: rest)

/-- Python `path.rstrip('/')`: removes every trailing `'/'`. -/
def rstripSlash (s : Str) : Str :=
  (s.reverse.dropWhile (fun c => c = '/')).reverse

/-- `normalize_endpoint` from `app/core/endpoint_registry.py` (lines 74-106):
strip trailing slashes, split on `/`, and return the join of the first four
segments when at least four exist, else the stripped path. -/
def normalize_endpoint (path : Str) : Str :=
  let path := rstripSlash path
  let parts := splitSlash path
  if parts.length ≥ 4 then joinSlash (parts.take 4)
  else path

/-- `is_normalized_endpoint` from `app/core/endpoint_registry.py`
(lines 109-128): a path is a base route iff it has exactly four segments. -/
def is_normalized_endpoint (path : Str) : Bool :=
  let path := rstripSlash path
  let parts := splitSlash path
  parts.length = 4

/-! ### Permission store and hybrid resolver
(`app/entities/user_permissions/` and `app/core/permissions.py`) -/

/-- A `user_permissions` row (`models/user_permission.py`).  Timestamps are
omitted: no verified claim depends on them. -/
structure UserPermission where
  user_id : Nat
  endpoint : Str
  method : Str
  allowed : Bool
  is_active : Bool
  is_deleted : Bool
  created_by : Option Nat
  deleted_by : Option Nat
deriving DecidableEq, Repr

/-- `UserPermissionRepository.get_permission` (repository lines 43-80):
first row matching user, endpoint, method, not soft-deleted, and — when
`active_only` — active.  The row list plays the role of the SQL result
order. -/
def get_permission (db : List UserPermission) (user_id : Nat) (endpoint : Str)
    (method : Str) (active_only : Bool) : Option UserPermission :=
  db.find? (fun p =>
    p.user_id == user_id && p.endpoint == endpoint && p.method == method &&
    p.is_deleted == false && (!active_only || p.is_active))

/-- `has_permission` from `app/core/permissions.py` (lines 249-294): hybrid
two-stage lookup — exact `(user, endpoint, method)` grant first, then the
normalized base endpoint when it differs, else default deny. -/
def has_permission (db : List UserPermission) (user_id : Nat) (endpoint : Str)
    (method : Str) : Bool :=
  match get_permission db user_id endpoint method true with
  | some specific_permission => specific_permission.allowed
  | none =>
    if normalize_endpoint endpoint ≠ endpoint then
      match get_permission db user_id (normalize_endpoint endpoint) method true with
      | some base_permission => base_permission.allowed
      | none => false
    else false

/-! ### Session model and bulk permission replacement

The SQLAlchemy session is modelled as the pair of the last committed row list
and the current (in-transaction) row list; `commit` publishes the current
state, `rollback` restores the committed one. -/

structure DBSession where
  committed : List UserPermission
  current : List UserPermission
deriving Repr

def DBSession.commit (s : DBSession) : DBSession := ⟨s.current, s.current⟩

def DBSession.rollback (s : DBSession) : DBSession := ⟨s.committed, s.committed⟩

/-- Python truthiness of an optional integer id (`if deleted_by:` and the
`data.get(...)` checks): `None` and `0` are falsy. -/
def truthyNat : Option Nat → Bool
  | none => false
  | some n => n != 0

/-- `UserPermissionRepository.bulk_delete_by_user` (repository lines 189-228):
soft-deletes every non-deleted row of the user, then issues its own
`self.db.commit()`. -/
def bulk_delete_by_user (s : DBSession) (user_id : Nat) (deleted_by : Option Nat) :
    DBSession :=
  let current := s.current.map (fun perm =>
    if perm.user_id = user_id ∧ perm.is_deleted = false then
      { perm with
        is_deleted := true
        is_active := false
        deleted_by := if truthyNat deleted_by then deleted_by else perm.deleted_by }
    else perm)
  DBSession.commit { s with current := current }

/-- `UserPermissionService.bulk_update_user_permissions` (service lines
273-296) in the run where the insert phase raises after `partial_inserts`
rows were added to the session: the `except` handler calls `self.db.rollback()`,
but `bulk_delete_by_user` has already committed the soft-deletes, so only the
uncommitted inserts are discarded.  (`db.flush()` is the identity here: reads
in this model always see `current`.) -/
def bulk_update_user_permissions_insert_failure (s : DBSession) (user_id : Nat)
    (updated_by : Nat) (partial_inserts : List UserPermission) : DBSession :=
  let s := bulk_delete_by_user s user_id (some updated_by)
  let s := { s with current := s.current ++ partial_inserts }
  DBSession.rollback s

/-! ### Permission middleware (`app/core/permission_middleware.py`) -/

/-- `PermissionMiddleware.excluded_paths` (lines 41-47). -/
def excluded_paths : List Str :=
  [pyStr "/token", pyStr "/docs", pyStr "/redoc", pyStr "/openapi.json", pyStr "/health"]

/-- `PermissionMiddleware._is_excluded_path` (lines 114-127):
`path.startswith(excluded)` for some entry of the allow-list. -/
def is_excluded_path (path : Str) : Bool :=
  excluded_paths.any (fun excluded => excluded.isPrefixOf path)

/-- Python `s.replace(old, new)`: replaces every occurrence, scanning left to
right (used for `authorization.replace("Bearer ", "")`). -/
def strReplace (old new : Str) : Str → Str
  | [] => []
  | c :: rest =>
    if old ≠ [] ∧ old.isPrefixOf (c :: rest) then
      new ++ strReplace old new ((c :: rest).drop old.length)
    else
      c :: strReplace old new rest
termination_by s => s.length
decreasing_by
  · rename_i h
    have h1 : 1 ≤ old.length := List.length_pos.mpr h.1
    simp only [List.length_drop, List.length_cons]
    omega
  · simp

/-- Outcome of `PermissionMiddleware.dispatch` (lines 49-112), keeping the
control-flow distinction between forwarding without any permission check
(`passthrough`) and forwarding after a successful check (`proceed`). -/
inductive DispatchResult
  | passthrough
  | unauthorized
  | forbidden
  | proceed
deriving DecidableEq, Repr

/-- `PermissionMiddleware.dispatch`.  `verify` stands for the external
`verify_token`: `none` is an invalid token, `some payload` carries
`payload.get("user_id")`.  Returning `unauthorized` for `user_id = 0` mirrors
Python's falsy check `if not user_id`. -/
def dispatch (db : List UserPermission) (verify : Str → Option (Option Nat))
    (path : Str) (authorization : Option Str) (method : Str) : DispatchResult :=
  if is_excluded_path path then .passthrough
  else
    match authorization with
    | none => .passthrough
    | some auth =>
      if ¬ (pyStr "Bearer ").isPrefixOf auth then .passthrough
      else
        let token := strReplace (pyStr "Bearer ") [] auth
        match verify token with
        | none => .unauthorized
        | some payload =>
          match payload with
          | none => .unauthorized
          | some user_id =>
            if user_id = 0 then .unauthorized
            else
              let endpoint := normalize_endpoint path
              if ¬ has_permission db user_id endpoint method then .forbidden
              else .proceed

/-- The permission decision `dispatch` takes once a request is authenticated:
`has_permission` applied to the normalized request path (lines 93-97). -/
def request_permission_decision (db : List UserPermission) (user_id : Nat)
    (path : Str) (method : Str) : Bool :=
  has_permission db user_id (normalize_endpoint path) method

/-! ### Scope validator (`app/entities/user_scopes/services/user_scope_service.py`) -/

/-- `ScopeTypeEnum` (`schemas/enums.py`). -/
inductive ScopeTypeEnum
  | GLOBAL
  | BUSINESS_GROUP
  | COMPANY
  | BRANCH
  | DEPARTMENT
deriving DecidableEq, Repr

/-- The fields of the `data` dict consumed by `_validate_user_scope_data`;
`none` stands for an absent key or Python `None`. -/
structure UserScopeData where
  user_id : Option Int
  scope_type : Option ScopeTypeEnum
  business_group_id : Option Int
  company_id : Option Int
  branch_id : Option Int
  department_id : Option Int
deriving DecidableEq, Repr

/-- Python truthiness of an optional integer (`if not business_group_id`,
`any([...])`): `None` and `0` are falsy. -/
def truthyInt : Option Int → Bool
  | none => false
  | some n => n != 0

/-- Python dict assignment `errors[key] = value`, preserving insertion
order. -/
def setError : List (String × String) → String → String → List (String × String)
  | [], k, v => [(k, v)]
  | (k', v') :: rest, k, v =>
    if k' = k then (k, v) :: rest else (k', v') :: setError rest k v

/-- Result of `_validate_user_scope_data`: normal return, an
`EntityValidationError` with its field-error dict, or a `BusinessRuleError`
with its message. -/
inductive ScopeValidationResult
  | ok
  | validationError (errors : List (String × String))
  | businessRuleError (msg : String)
deriving DecidableEq, Repr

def ScopeValidationResult.isValidationError : ScopeValidationResult → Bool
  | .validationError _ => true
  | _ => false

def ScopeValidationResult.isBusinessRuleError : ScopeValidationResult → Bool
  | .businessRuleError _ => true
  | _ => false

/-- Rules 4-5 of `_validate_user_scope_data` (service lines 74-81): scope
types permitted per role, written into `errors["scope_type"]`. -/
def roleScopeErrors (user_role : Int) (scope_type : ScopeTypeEnum)
    (errors : List (String × String)) : List (String × String) :=
  let errors :=
    if user_role = 3 ∧ scope_type ≠ .DEPARTMENT then
      setError errors "scope_type" "Los Gestores solo pueden tener scope DEPARTMENT"
    else errors
  if user_role = 2 ∧ ¬ (scope_type = .BUSINESS_GROUP ∨ scope_type = .COMPANY ∨ scope_type = .BRANCH) then
    setError errors "scope_type" "Los Gerentes solo pueden tener scopes BUSINESS_GROUP, COMPANY o BRANCH"
  else errors

/-- Rules 7-12 of `_validate_user_scope_data` (service lines 83-120):
coherence between `scope_type` and the four organizational-unit ids. -/
def entityCoherenceErrors (data : UserScopeData) (scope_type : ScopeTypeEnum)
    (errors : List (String × String)) : List (String × String) :=
  let business_group_id := data.business_group_id
  let company_id := data.company_id
  let branch_id := data.branch_id
  let department_id := data.department_id
  match scope_type with
  | .GLOBAL =>
    if truthyInt business_group_id || truthyInt company_id || truthyInt branch_id || truthyInt department_id then
      setError errors "scope_type" "GLOBAL no debe tener ningún entity_id asociado"
    else errors
  | .BUSINESS_GROUP =>
    let errors :=
      if ¬ truthyInt business_group_id then
        setError errors "business_group_id" "business_group_id es requerido para scope BUSINESS_GROUP"
      else errors
    if truthyInt company_id || truthyInt branch_id || truthyInt department_id then
      setError errors "scope_type" "BUSINESS_GROUP solo debe tener business_group_id poblado"
    else errors
  | .COMPANY =>
    let errors :=
      if ¬ truthyInt company_id then
        setError errors "company_id" "company_id es requerido para scope COMPANY"
      else errors
    if truthyInt business_group_id || truthyInt branch_id || truthyInt department_id then
      setError errors "scope_type" "COMPANY solo debe tener company_id poblado"
    else errors
  | .BRANCH =>
    let errors :=
      if ¬ truthyInt branch_id then
        setError errors "branch_id" "branch_id es requerido para scope BRANCH"
      else errors
    if truthyInt business_group_id || truthyInt company_id || truthyInt department_id then
      setError errors "scope_type" "BRANCH solo debe tener branch_id poblado"
    else errors
  | .DEPARTMENT =>
    let errors :=
      if ¬ truthyInt department_id then
        setError errors "department_id" "department_id es requerido para scope DEPARTMENT"
      else errors
    if truthyInt business_group_id || truthyInt company_id || truthyInt branch_id then
      setError errors "scope_type" "DEPARTMENT solo debe tener department_id poblado"
    else errors

/-- `UserScopeService._validate_user_scope_data` (service lines 28-123).
Roles: 1 Admin, 2 Gerente, 3 Gestor, 4 Colaborador, 5 Guest.  The `none`
branch of the inner match is unreachable: `scope_type` is present whenever
the mandatory-field errors are empty. -/
def validate_user_scope_data (data : UserScopeData) (user_role : Int) :
    ScopeValidationResult :=
  let errors : List (String × String) := []
  let errors :=
    if data.user_id = none then setError errors "user_id" "user_id es requerido"
    else errors
  let errors :=
    if data.scope_type = none then setError errors "scope_type" "scope_type es requerido"
    else errors
  if errors ≠ [] then .validationError errors
  else
    match data.scope_type with
    | none => .ok
    | some scope_type =>
      if user_role = 4 ∨ user_role = 5 then
        .businessRuleError
          ("Los usuarios con rol " ++ toString user_role ++
            " (Colaborador/Guest) no pueden tener scopes asignados")
      else
        let errors := roleScopeErrors user_role scope_type errors
        let errors := entityCoherenceErrors data scope_type errors
        if errors ≠ [] then .validationError errors else .ok

/-- Modelled from the spec (§4.3): "Exactly one organizational-unit identifier
must be populated, and it must match `scope_type`: GLOBAL requires all four
identifier fields empty; BUSINESS_GROUP requires only `business_group_id`
populated and the other three empty; analogously for
COMPANY/BRANCH/DEPARTMENT."  Used only to compare the code's acceptance set
against the spec's wording. -/
def scopeExclusivitySpec (d : UserScopeData) : Bool :=
  match d.scope_type with
  | none => false
  | some .GLOBAL =>
    !truthyInt d.business_group_id && !truthyInt d.company_id &&
    !truthyInt d.branch_id && !truthyInt d.department_id
  | some .BUSINESS_GROUP =>
    truthyInt d.business_group_id && !truthyInt d.company_id &&
    !truthyInt d.branch_id && !truthyInt d.department_id
  | some .COMPANY =>
    !truthyInt d.business_group_id && truthyInt d.company_id &&
    !truthyInt d.branch_id && !truthyInt d.department_id
  | some .BRANCH =>
    !truthyInt d.business_group_id && !truthyInt d.company_id &&
    truthyInt d.branch_id && !truthyInt d.department_id
  | some .DEPARTMENT =>
    !truthyInt d.business_group_id && !truthyInt d.company_id &&
    !truthyInt d.branch_id && truthyInt d.department_id

/-! ### Cycle guards (`department_service.py` lines 439-484 and
`employee_service.py` lines 419-467) -/

/-- `MAX_HIERARCHY_DEPTH`: the fixed depth bound, `10` in both
`department_service.py` (module constant) and `employee_service.py` (class
attribute). -/
def MAX_HIERARCHY_DEPTH : Nat := 10

/-- Outcome of `DepartmentService._validate_no_circular_reference`: normal
return, or one of its three `BusinessRuleError` kinds. -/
inductive DeptCycleResult
  | ok
  | circularReference
  | selfParent
  | depthExceeded
deriving DecidableEq, Repr

/-- Outcome of `EmployeeService._validate_no_circular_supervisor`: normal
return, or one of its four `BusinessRuleError` kinds. -/
inductive EmpCycleResult
  | ok
  | selfSupervisor
  | circularReference
  | circularThroughSelf
  | depthExceeded
deriving DecidableEq, Repr

/-- The in-loop check `if department_id and current_id == department_id`:
Python truthiness makes it a no-op when `department_id` is `None` or `0`. -/
def deptSelfCheck (department_id : Option Nat) (current_id : Nat) : Bool :=
  match department_id with
  | none => false
  | some d => (d != 0) && (current_id == d)

/-- The `while` loop of `DepartmentService._validate_no_circular_reference`
(lines 451-484).  `get_by_id` is the repository's parent lookup: `none` means
the row does not exist (the loop `break`s), `some p` carries the row's
nullable `parent_id`. -/
def deptCycleWalk (get_by_id : Nat → Option (Option Nat)) (department_id : Option Nat)
    (visited : List Nat) (current_id : Nat) (depth : Nat) : DeptCycleResult :=
  if current_id ∈ visited then .circularReference
  else if deptSelfCheck department_id current_id then .selfParent
  else
    let visited := current_id :: visited
    let depth := depth + 1
    if depth > MAX_HIERARCHY_DEPTH then .depthExceeded
    else
      match get_by_id current_id with
      | none => .ok
      | some none => .ok
      | some (some parent_id) => deptCycleWalk get_by_id department_id visited parent_id depth
termination_by MAX_HIERARCHY_DEPTH + 1 - depth
decreasing_by
  rename_i hdepth
  simp only [Nat.not_lt] at hdepth
  omega

/-- `DepartmentService._validate_no_circular_reference` (lines 439-484):
`department_id` is `None` on creation; the walk runs in either case. -/
def dept_validate_no_circular_reference (get_by_id : Nat → Option (Option Nat))
    (department_id : Option Nat) (parent_id : Nat) : DeptCycleResult :=
  deptCycleWalk get_by_id department_id [] parent_id 0

/-- The `while` loop of `EmployeeService._validate_no_circular_supervisor`
(lines 441-467); `employee_id` is guaranteed non-`None` here. -/
def empCycleWalk (get_by_id : Nat → Option (Option Nat)) (employee_id : Nat)
    (visited : List Nat) (current_id : Nat) (depth : Nat) : EmpCycleResult :=
  if current_id ∈ visited then .circularReference
  else if current_id = employee_id then .circularThroughSelf
  else
    let visited := current_id :: visited
    let depth := depth + 1
    if depth > MAX_HIERARCHY_DEPTH then .depthExceeded
    else
      match get_by_id current_id with
      | none => .ok
      | some none => .ok
      | some (some supervisor_id) => empCycleWalk get_by_id employee_id visited supervisor_id depth
termination_by MAX_HIERARCHY_DEPTH + 1 - depth
decreasing_by
  rename_i hdepth
  simp only [Nat.not_lt] at hdepth
  omega

/-- `EmployeeService._validate_no_circular_supervisor` (lines 419-467): on
creation (`employee_id is None`) it returns immediately without walking;
otherwise it rejects direct self-supervision and then walks the supervisor
chain. -/
def emp_validate_no_circular_supervisor (get_by_id : Nat → Option (Option Nat))
    (employee_id : Option Nat) (supervisor_id : Nat) : EmpCycleResult :=
  match employee_id with
  | none => .ok
  | some employee_id =>
    if employee_id = supervisor_id then .selfSupervisor
    else empCycleWalk get_by_id employee_id [] supervisor_id 0

/-- A linked ancestry chain with no dangling reference: each node's parent
lookup yields the next node, and the last node is a root (`parent_ref` =
`None`).  Spec-side notion used to state the depth-bound claim. -/
def linkedChainB (get_by_id : Nat → Option (Option Nat)) : List Nat → Bool
  | [] => true
  | [a] => get_by_id a == some none
  | a :: b :: rest => (get_by_id a == some (some b)) && linkedChainB get_by_id (b :: rest)

/-! ### Structural lemmas about `splitSlash`, `joinSlash`, `rstripSlash` -/

lemma splitSlash_ne_nil (s : Str) : splitSlash s ≠ [] := by
  induction s with
  | nil => simp [splitSlash]
  | cons c rest ih =>
    by_cases h : c = '/'
    · simp [splitSlash, h]
    · simp only [splitSlash, if_neg h]
      cases hs : splitSlash rest with
      | nil => simp
      | cons a as => simp

lemma no_slash_mem_splitSlash (s : Str) : ∀ x ∈ splitSlash s, '/' ∉ x := by
  induction s with
  | nil => intro x hx; simp [splitSlash] at hx; simp [hx]
  | cons c rest ih =>
    intro x hx
    by_cases h : c = '/'
    · simp only [splitSlash, if_pos h, List.mem_cons] at hx
      rcases hx with rfl | hx
      · simp
      · exact ih x hx
    · simp only [splitSlash, if_neg h] at hx
      cases hs : splitSlash rest with
      | nil =>
        rw [hs] at hx; simp at hx; subst hx
        simp only [List.mem_singleton]
        exact fun he => h he.symm
      | cons a as =>
        rw [hs] at hx
        simp only [List.mem_cons] at hx
        rcases hx with rfl | hx
        · intro hmem
          simp only [List.mem_cons] at hmem
          rcases hmem with he | hmem
          · exact h he.symm
          · exact ih a (hs ▸ List.mem_cons_self a as) hmem
        · exact ih x (hs ▸ List.mem_cons_of_mem a hx)

lemma splitSlash_of_no_slash (a : Str) (h : '/' ∉ a) : splitSlash a = [a] := by
  induction a with
  | nil => rfl
  | cons c rest ih =>
    have hc : ¬ c = '/' := fun hc => h (by simp [hc])
    have hrest : '/' ∉ rest := fun hm => h (List.mem_cons_of_mem c hm)
    simp [splitSlash, if_neg hc, ih hrest]

lemma splitSlash_append_slash (a s : Str) (h : '/' ∉ a) :
    splitSlash (a ++ '/' :: s) = a :: splitSlash s := by
  induction a with
  | nil => simp [splitSlash]
  | cons c rest ih =>
    have hc : ¬ c = '/' := fun hc => h (by simp [hc])
    have hrest : '/' ∉ rest := fun hm => h (List.mem_cons_of_mem c hm)
    simp [splitSlash, if_neg hc, ih hrest]

lemma splitSlash_joinSlash (ps : List Str) (hne : ps ≠ [])
    (h : ∀ x ∈ ps, '/' ∉ x) : splitSlash (joinSlash ps) = ps := by
  induction ps with
  | nil => exact absurd rfl hne
  | cons a rest ih =>
    cases rest with
    | nil =>
      simp only [joinSlash]
      exact splitSlash_of_no_slash a (h a (by simp))
    | cons b rest' =>
      have ha : '/' ∉ a := h a (by simp)
      simp only [joinSlash]
      rw [splitSlash_append_slash a _ ha,
        ih (by simp) (fun x hx => h x (List.mem_cons_of_mem a hx))]

lemma joinSlash_snoc (qs : List Str) (l : Str) (h : qs ≠ []) :
    joinSlash (qs ++ [l]) = joinSlash qs ++ '/' :: l := by
  induction qs with
  | nil => exact absurd rfl h
  | cons a rest ih =>
    cases rest with
    | nil => rfl
    | cons b rest' =>
      have h1 : joinSlash ((a :: b :: rest') ++ [l])
          = a ++ '/' :: joinSlash ((b :: rest') ++ [l]) := rfl
      rw [h1, ih (by simp)]
      show a ++ '/' :: (joinSlash (b :: rest') ++ '/' :: l)
          = (a ++ '/' :: joinSlash (b :: rest')) ++ '/' :: l
      simp

lemma dropWhile_self_idem (p : Char → Bool) (l : List Char) :
    (l.dropWhile p).dropWhile p = l.dropWhile p := by
  induction l with
  | nil => rfl
  | cons c t ih =>
    by_cases h : p c = true
    · simp [List.dropWhile_cons, h, ih]
    · simp [List.dropWhile_cons, h]

lemma rstripSlash_idem (s : Str) : rstripSlash (rstripSlash s) = rstripSlash s := by
  unfold rstripSlash
  rw [List.reverse_reverse, dropWhile_self_idem]

lemma rstripSlash_append_of_no_slash (s l : Str) (hne : l ≠ []) (h : '/' ∉ l) :
    rstripSlash (s ++ l) = s ++ l := by
  obtain ⟨c, t, hrev⟩ : ∃ c t, l.reverse = c :: t := by
    cases hl : l.reverse with
    | nil => exact absurd (by simpa using congrArg List.reverse hl) hne
    | cons c t => exact ⟨c, t, rfl⟩
  have hc : c ∈ l := by
    rw [← List.mem_reverse, hrev]; simp
  have hcne : ¬ (c = '/') := fun he => h (he ▸ hc)
  unfold rstripSlash
  rw [List.reverse_append, hrev]
  simp only [List.cons_append, List.dropWhile_cons, decide_eq_true_eq, if_neg hcne]
  have : l = t.reverse ++ [c] := by
    have := congrArg List.reverse hrev
    simpa using this
  rw [this]
  simp

lemma rstripSlash_append_slash (s : Str) :
    rstripSlash (s ++ ['/']) = rstripSlash s := by
  unfold rstripSlash
  rw [List.reverse_append]
  simp [List.dropWhile_cons]

/-! ### Idempotence analysis of `normalize_endpoint` -/

lemma normalize_endpoint_def (p : Str) :
    normalize_endpoint p =
      if (splitSlash (rstripSlash p)).length ≥ 4 then
        joinSlash ((splitSlash (rstripSlash p)).take 4)
      else rstripSlash p := rfl

lemma normalize_endpoint_idem_of_cond (p : Str)
    (h : (splitSlash (rstripSlash p)).length < 4 ∨
      (splitSlash (rstripSlash p)).getD 3 [] ≠ []) :
    normalize_endpoint (normalize_endpoint p) = normalize_endpoint p := by
  by_cases h4 : (splitSlash (rstripSlash p)).length ≥ 4
  · have h3 : (splitSlash (rstripSlash p)).getD 3 [] ≠ [] := by
      rcases h with h | h
      · omega
      · exact h
    rcases hp : splitSlash (rstripSlash p) with _ | ⟨p0, _ | ⟨p1, _ | ⟨p2, _ | ⟨p3, rest⟩⟩⟩⟩
    · rw [hp] at h4; simp at h4
    · rw [hp] at h4; simp at h4
    · rw [hp] at h4; simp at h4
    · rw [hp] at h4; simp at h4
    have hros : ∀ x ∈ ([p0, p1, p2, p3] : List Str), '/' ∉ x := by
      intro x hx
      apply no_slash_mem_splitSlash (rstripSlash p)
      rw [hp]
      simp only [List.mem_cons, List.mem_singleton] at hx ⊢
      tauto
    have hp3 : p3 ≠ [] := by
      rw [hp] at h3
      simpa using h3
    have hr : normalize_endpoint p = joinSlash [p0, p1, p2, p3] := by
      rw [normalize_endpoint_def, if_pos h4, hp]
      rfl
    have hr_eq : joinSlash [p0, p1, p2, p3]
        = (p0 ++ '/' :: (p1 ++ '/' :: (p2 ++ ['/']))) ++ p3 := by
      simp [joinSlash]
    have hr1 : rstripSlash (joinSlash [p0, p1, p2, p3]) = joinSlash [p0, p1, p2, p3] := by
      rw [hr_eq]
      exact rstripSlash_append_of_no_slash _ _ hp3 (hros p3 (by simp))
    have hsplit_r : splitSlash (joinSlash [p0, p1, p2, p3]) = [p0, p1, p2, p3] :=
      splitSlash_joinSlash _ (by simp) hros
    rw [hr, normalize_endpoint_def, hr1, hsplit_r]
    simp
  · rw [normalize_endpoint_def p, if_neg h4, normalize_endpoint_def, rstripSlash_idem,
      if_neg h4]

/-- **C6** (status: corrected).  `normalize` is *not* idempotent on all
strings (see `normalize_not_idempotent`); it is idempotent on every path
whose stripped form either has fewer than four `/`-segments or has a
non-empty fourth segment — in particular on every well-formed API path. -/
theorem normalize_idempotent_amended (p : Str)
    (h : (splitSlash (rstripSlash p)).length < 4 ∨
      (splitSlash (rstripSlash p)).getD 3 [] ≠ []) :
    normalize_endpoint (normalize_endpoint p) = normalize_endpoint p :=
  normalize_endpoint_idem_of_cond p h

/-- Counterexample for C6 as stated: on `"/api/v1//x"` (empty fourth
segment) normalization yields `"/api/v1/"`, which re-normalizes to
`"/api/v1"`. -/
theorem normalize_not_idempotent :
    normalize_endpoint (normalize_endpoint (pyStr "/api/v1//x"))
      ≠ normalize_endpoint (pyStr "/api/v1//x") := by decide

/-- Witness for C6 (amended): a well-formed detail route satisfies the
side condition and is stable under double normalization. -/
theorem normalize_idempotent_amended_witness :
    (splitSlash (rstripSlash (pyStr "/api/v1/employees/123"))).getD 3 [] ≠ [] ∧
    normalize_endpoint (normalize_endpoint (pyStr "/api/v1/employees/123"))
      = normalize_endpoint (pyStr "/api/v1/employees/123") :=
  ⟨by decide, normalize_idempotent_amended _ (Or.inr (by decide))⟩

/-! ### Helper lemmas for the permission resolver -/

lemma get_permission_none_of_no_user (db : List UserPermission) (u : Nat)
    (e m : Str) (ao : Bool) (h : ∀ g ∈ db, g.user_id ≠ u) :
    get_permission db u e m ao = none := by
  unfold get_permission
  rw [List.find?_eq_none]
  intro x hx hp
  simp only [Bool.and_eq_true, beq_iff_eq] at hp
  exact h x hx hp.1.1.1.1

lemma insert_failure_get_none (s : DBSession) (u a : Nat)
    (ps : List UserPermission) (e m : Str) (ao : Bool) :
    get_permission (bulk_update_user_permissions_insert_failure s u a ps).current
      u e m ao = none := by
  have hcur : (bulk_update_user_permissions_insert_failure s u a ps).current
      = (bulk_delete_by_user s u (some a)).current := rfl
  rw [hcur]
  unfold bulk_delete_by_user DBSession.commit
  simp only
  unfold get_permission
  rw [List.find?_eq_none]
  intro x hx hp
  simp only [Bool.and_eq_true, beq_iff_eq] at hp
  rw [List.mem_map] at hx
  obtain ⟨y, hy, rfl⟩ := hx
  by_cases hc : y.user_id = u ∧ y.is_deleted = false
  · rw [if_pos hc] at hp
    simp at hp
  · rw [if_neg hc] at hp
    exact hc ⟨hp.1.1.1.1, hp.1.2⟩

/-- **C1** (status: code_bug).  The spec requires `replaceAll` to be atomic:
an insert-phase failure must roll back the soft-delete phase, leaving the
prior grant set intact.  In the code, `bulk_delete_by_user` issues its own
`COMMIT` before the insert phase runs, so the service's `rollback` in the
`except` handler cannot restore the deleted grants: after a failed bulk
update the user is left with *no* non-deleted grants, and every subsequent
`has_permission` call returns `false` — not the pre-update decision.  The
last two conjuncts exhibit the divergence at a concrete input whose
pre-update decision was `true`. -/
theorem bulk_update_insert_failure_not_atomic :
    (∀ (s : DBSession) (u a : Nat) (ps : List UserPermission) (e m : Str),
      has_permission (bulk_update_user_permissions_insert_failure s u a ps).current
        u e m = false)
    ∧ has_permission
        [⟨1, pyStr "/api/v1/employees", pyStr "GET", true, true, false, none, none⟩]
        1 (pyStr "/api/v1/employees") (pyStr "GET") = true
    ∧ has_permission
        (bulk_update_user_permissions_insert_failure
          ⟨[⟨1, pyStr "/api/v1/employees", pyStr "GET", true, true, false, none, none⟩],
           [⟨1, pyStr "/api/v1/employees", pyStr "GET", true, true, false, none, none⟩]⟩
          1 9
          [⟨1, pyStr "/api/v1/employees", pyStr "GET", true, true, false, some 9, none⟩,
           ⟨1, pyStr "/api/v1/employees", pyStr "POST", true, true, false, some 9, none⟩]).current
        1 (pyStr "/api/v1/employees") (pyStr "GET") = false := by
  refine ⟨?_, by decide, by decide⟩
  intro s u a ps e m
  unfold has_permission
  rw [insert_failure_get_none]
  simp only
  split
  · rw [insert_failure_get_none]
  · rfl

/-- **C2** (status: confirmed).  If a non-deleted active grant exists for the
exact `(user, endpoint, method)` tuple — i.e. the specific lookup
`get_permission` returns it — then `has_permission` returns that grant's
`allowed` value, never falling through to the base-path grant; in particular
a specific `false` wins over a base `true`. -/
theorem specific_grant_decides (db : List UserPermission) (u : Nat) (e m : Str)
    (g : UserPermission) (h : get_permission db u e m true = some g) :
    has_permission db u e m = g.allowed := by
  unfold has_permission
  rw [h]

/-- Witness for C2: a specific grant of `false` on
`/api/v1/individuals/with-user` beats a base grant of `true` on
`/api/v1/individuals` for the same method. -/
theorem specific_grant_decides_witness :
    has_permission
      [⟨1, pyStr "/api/v1/individuals/with-user", pyStr "POST", false, true, false, none, none⟩,
       ⟨1, pyStr "/api/v1/individuals", pyStr "POST", true, true, false, none, none⟩]
      1 (pyStr "/api/v1/individuals/with-user") (pyStr "POST") = false :=
  specific_grant_decides
    [⟨1, pyStr "/api/v1/individuals/with-user", pyStr "POST", false, true, false, none, none⟩,
     ⟨1, pyStr "/api/v1/individuals", pyStr "POST", true, true, false, none, none⟩]
    1 (pyStr "/api/v1/individuals/with-user") (pyStr "POST")
    ⟨1, pyStr "/api/v1/individuals/with-user", pyStr "POST", false, true, false, none, none⟩
    (by decide)

/-- **C4** (status: confirmed).  If neither the exact lookup nor the
base-path lookup finds a non-deleted active grant, `has_permission` returns
`false`; in particular a user with zero grants is denied every
`(endpoint, method)` pair.  (`has_permission` is a total Lean function, so
the embedding cannot raise.) -/
theorem default_deny (db : List UserPermission) (u : Nat) (e m : Str) :
    (get_permission db u e m true = none →
      get_permission db u (normalize_endpoint e) m true = none →
      has_permission db u e m = false)
    ∧ ((∀ g ∈ db, g.user_id ≠ u) → has_permission db u e m = false) := by
  constructor
  · intro h1 h2
    unfold has_permission
    rw [h1]
    simp only
    split
    · rw [h2]
    · rfl
  · intro h
    unfold has_permission
    rw [get_permission_none_of_no_user db u e m true h]
    simp only
    split
    · rw [get_permission_none_of_no_user db u _ m true h]
    · rfl

/-- Witness for C4: the empty grant store denies a concrete request. -/
theorem default_deny_witness :
    has_permission [] 3 (pyStr "/api/v1/employees/123") (pyStr "DELETE") = false :=
  (default_deny [] 3 (pyStr "/api/v1/employees/123") (pyStr "DELETE")).2
    (by intro g hg; cases hg)

/-- **C10** (status: confirmed).  For a request whose path is not on the
excluded allow-list, if the `Authorization` header is absent or does not
start with `"Bearer "`, `dispatch` forwards the request to the next handler
without performing any permission check. -/
theorem missing_bearer_forwards (db : List UserPermission)
    (verify : Str → Option (Option Nat)) (path : Str) (auth : Option Str)
    (method : Str) (hex : is_excluded_path path = false)
    (hauth : ∀ a, auth = some a → (pyStr "Bearer ").isPrefixOf a = false) :
    dispatch db verify path auth method = .passthrough := by
  unfold dispatch
  rw [hex]
  simp only [Bool.false_eq_true, if_false]
  cases auth with
  | none => rfl
  | some a =>
    have h := hauth a rfl
    simp [h]

/-- Witness for C10: a request with a non-Bearer header on a non-excluded
path is forwarded unchecked. -/
theorem missing_bearer_forwards_witness :
    dispatch [] (fun _ => none) (pyStr "/api/v1/employees")
      (some (pyStr "Token abc")) (pyStr "GET") = .passthrough :=
  missing_bearer_forwards _ _ _ _ _ (by decide)
    (by intro a h; injection h with h; subst h; decide)

/-! ### Segment bound of normalized endpoints, and C3 -/

lemma seglen_rstrip_join_le (ps : List Str) : ps ≠ [] → (∀ x ∈ ps, '/' ∉ x) →
    (splitSlash (rstripSlash (joinSlash ps))).length ≤ ps.length := by
  induction ps using List.reverseRecOn with
  | nil => intro h; exact absurd rfl h
  | append_singleton qs l ih =>
    intro _ hns
    by_cases hl : l = []
    · subst hl
      cases qs with
      | nil => decide
      | cons q qt =>
        rw [joinSlash_snoc _ _ (by simp)]
        have hsl : ('/' :: ([] : Str)) = ['/'] := rfl
        rw [hsl, rstripSlash_append_slash]
        have h := ih (by simp) (fun x hx => hns x (List.mem_append_left _ hx))
        simp only [List.length_append, List.length_cons, List.length_nil] at h ⊢
        omega
    · have hstrip : rstripSlash (joinSlash (qs ++ [l])) = joinSlash (qs ++ [l]) := by
        cases qs with
        | nil =>
          simpa using rstripSlash_append_of_no_slash [] l hl (hns l (by simp))
        | cons q qt =>
          rw [joinSlash_snoc _ _ (by simp)]
          have hassoc : joinSlash (q :: qt) ++ '/' :: l
              = (joinSlash (q :: qt) ++ ['/']) ++ l := by simp
          rw [hassoc]
          exact rstripSlash_append_of_no_slash _ _ hl (hns l (by simp))
      rw [hstrip, splitSlash_joinSlash _ (by simp) hns]

/-- Everything `normalize_endpoint` returns has at most four segments. -/
lemma normalize_seglen_le (p : Str) :
    (splitSlash (rstripSlash (normalize_endpoint p))).length ≤ 4 := by
  rw [normalize_endpoint_def]
  by_cases h4 : (splitSlash (rstripSlash p)).length ≥ 4
  · rw [if_pos h4]
    have hlen : ((splitSlash (rstripSlash p)).take 4).length = 4 := by
      rw [List.length_take]; omega
    have hne : (splitSlash (rstripSlash p)).take 4 ≠ [] := by
      intro he; rw [he] at hlen; simp at hlen
    have hns : ∀ x ∈ (splitSlash (rstripSlash p)).take 4, '/' ∉ x := fun x hx =>
      no_slash_mem_splitSlash _ x (List.take_subset 4 _ hx)
    have h := seglen_rstrip_join_le _ hne hns
    omega
  · rw [if_neg h4, rstripSlash_idem]
    omega

lemma find?_filter_of_imp {α : Type} (l : List α) (p q : α → Bool)
    (h : ∀ x, p x = true → q x = true) : (l.filter q).find? p = l.find? p := by
  induction l with
  | nil => rfl
  | cons c t ih =>
    by_cases hq : q c = true
    · by_cases hp : p c = true
      · simp [List.filter_cons, List.find?_cons, hq, hp]
      · simp [List.filter_cons, List.find?_cons, hq, hp, ih]
    · have hp : p c = false := by
        cases hpc : p c
        · rfl
        · exact absurd (h c hpc) hq
      simp [List.filter_cons, List.find?_cons, hq, hp, ih]

/-- Grants stored at paths with more than four segments can never match a
lookup at a (at most four segment) query endpoint. -/
lemma get_permission_filter (db : List UserPermission) (u : Nat) (e m : Str)
    (ao : Bool) (he : (splitSlash (rstripSlash e)).length ≤ 4) :
    get_permission
        (db.filter fun g => decide ((splitSlash (rstripSlash g.endpoint)).length ≤ 4))
        u e m ao
      = get_permission db u e m ao := by
  unfold get_permission
  apply find?_filter_of_imp
  intro x hx
  simp only [Bool.and_eq_true, beq_iff_eq] at hx
  rw [decide_eq_true_eq, hx.1.1.1.2]
  exact he

/-- **C3** (status: corrected).  (i) The middleware normalizes the request
path to its base key before calling the resolver: once the Bearer token is
verified, `dispatch` decides exactly by
`has_permission db u (normalize_endpoint path) method`.  (ii) Grants stored
at more-specific paths (more than four segments) are never consulted at
request time: filtering them out of the store does not change the decision.
(iii) The request-time decision for a sub-route equals the decision for its
base path — *provided* the path's stripped form has fewer than four segments
or a non-empty fourth segment; the unrestricted claim fails (see the
counterexample). -/
theorem middleware_normalizes_before_resolution :
    (∀ (db : List UserPermission) (verify : Str → Option (Option Nat))
      (path a method : Str) (u : Nat),
      is_excluded_path path = false →
      (pyStr "Bearer ").isPrefixOf a = true →
      verify (strReplace (pyStr "Bearer ") [] a) = some (some u) →
      u ≠ 0 →
      dispatch db verify path (some a) method
        = (if request_permission_decision db u path method then .proceed else .forbidden))
    ∧ (∀ (db : List UserPermission) (u : Nat) (p m : Str),
      has_permission
          (db.filter fun g => decide ((splitSlash (rstripSlash g.endpoint)).length ≤ 4))
          u (normalize_endpoint p) m
        = has_permission db u (normalize_endpoint p) m)
    ∧ (∀ (db : List UserPermission) (u : Nat) (p m : Str),
      ((splitSlash (rstripSlash p)).length < 4 ∨
        (splitSlash (rstripSlash p)).getD 3 [] ≠ []) →
      request_permission_decision db u p m
        = request_permission_decision db u (normalize_endpoint p) m) := by
  refine ⟨?_, ?_, ?_⟩
  · intro db verify path a method u hex hpre hver hu
    unfold dispatch
    rw [hex]
    simp only [Bool.false_eq_true, if_false, hpre, hver]
    simp only [not_true, if_false, if_neg hu]
    unfold request_permission_decision
    cases h : has_permission db u (normalize_endpoint path) method <;> simp [h]
  · intro db u p m
    have h1 := get_permission_filter db u (normalize_endpoint p) m true (normalize_seglen_le p)
    have h2 := get_permission_filter db u (normalize_endpoint (normalize_endpoint p)) m true
      (normalize_seglen_le (normalize_endpoint p))
    unfold has_permission
    rw [h1]
    cases hgp : get_permission db u (normalize_endpoint p) m true with
    | some g => rfl
    | none => rw [h2]
  · intro db u p m hc
    unfold request_permission_decision
    rw [normalize_endpoint_idem_of_cond p hc]

/-- Counterexample for C3 as stated: with a single grant stored at the
degenerate base key `"/api/v1/"`, the request-time decision for the
sub-route `"/api/v1//x"` (allow) differs from the request-time decision for
its own base path (deny). -/
theorem middleware_subroute_decision_counterexample :
    request_permission_decision
      [⟨1, pyStr "/api/v1/", pyStr "GET", true, true, false, none, none⟩]
      1 (pyStr "/api/v1//x") (pyStr "GET") = true
    ∧ request_permission_decision
      [⟨1, pyStr "/api/v1/", pyStr "GET", true, true, false, none, none⟩]
      1 (normalize_endpoint (pyStr "/api/v1//x")) (pyStr "GET") = false := by
  decide

/-- Witness for C3 (amended), at concrete inputs: an authenticated request
reaches the resolver with the normalized path, and a well-formed sub-route
decides like its base path. -/
theorem middleware_normalizes_before_resolution_witness :
    dispatch [] (fun _ => some (some 7)) (pyStr "/api/v1/employees/5")
        (some (pyStr "Bearer t")) (pyStr "GET")
      = (if request_permission_decision [] 7 (pyStr "/api/v1/employees/5") (pyStr "GET")
          then DispatchResult.proceed else .forbidden)
    ∧ request_permission_decision [] 2 (pyStr "/api/v1/employees/5") (pyStr "GET")
      = request_permission_decision [] 2
          (normalize_endpoint (pyStr "/api/v1/employees/5")) (pyStr "GET") :=
  ⟨middleware_normalizes_before_resolution.1 [] _ _ _ _ 7
      (by decide) (by decide) rfl (by decide),
    middleware_normalizes_before_resolution.2.2 [] 2 _ _ (Or.inr (by decide))⟩

/-! ### Scope validator claims (C7, C9) -/

lemma setError_ne_nil (e : List (String × String)) (k v : String) :
    setError e k v ≠ [] := by
  cases e with
  | nil => simp [setError]
  | cons h t =>
    unfold setError
    split <;> simp

lemma entityCoherenceErrors_ne_nil (d : UserScopeData) (st : ScopeTypeEnum)
    (e : List (String × String)) (h : e ≠ []) :
    entityCoherenceErrors d st e ≠ [] := by
  unfold entityCoherenceErrors
  cases st <;> dsimp only <;> (repeat' split) <;>
    first
      | exact setError_ne_nil _ _ _
      | exact h

/-- Characterization of `_validate_user_scope_data` when the two mandatory
fields are present. -/
lemma validate_eq_of_present (d : UserScopeData) (r : Int)
    (hu : ¬ d.user_id = none) (st : ScopeTypeEnum) (hst : d.scope_type = some st) :
    validate_user_scope_data d r =
      if r = 4 ∨ r = 5 then
        .businessRuleError
          ("Los usuarios con rol " ++ toString r ++
            " (Colaborador/Guest) no pueden tener scopes asignados")
      else if entityCoherenceErrors d st (roleScopeErrors r st []) ≠ [] then
        .validationError (entityCoherenceErrors d st (roleScopeErrors r st []))
      else .ok := by
  unfold validate_user_scope_data
  dsimp only
  rw [if_neg hu, hst,
    if_neg (show ¬((some st : Option ScopeTypeEnum) = none) by simp),
    if_neg (show ¬(([] : List (String × String)) ≠ []) by simp)]

lemma entityCoherence_empty_spec (d : UserScopeData) (st : ScopeTypeEnum)
    (hst : d.scope_type = some st) (e : List (String × String))
    (h : entityCoherenceErrors d st e = []) : scopeExclusivitySpec d = true := by
  unfold entityCoherenceErrors at h
  cases st <;> dsimp only at h
  case GLOBAL =>
    split at h
    · exact absurd h (setError_ne_nil _ _ _)
    next hcond =>
      simp only [Bool.or_eq_true, not_or, Bool.not_eq_true] at hcond
      simp only [scopeExclusivitySpec, hst, Bool.and_eq_true, Bool.not_eq_true']
      tauto
  case BUSINESS_GROUP =>
    split at h
    · exact absurd h (setError_ne_nil _ _ _)
    next hcond2 =>
      split at h
      · exact absurd h (setError_ne_nil _ _ _)
      next hcond1 =>
        simp only [Bool.or_eq_true, not_or, Bool.not_eq_true, Bool.not_eq_false, not_not] at hcond1 hcond2
        simp only [scopeExclusivitySpec, hst, Bool.and_eq_true, Bool.not_eq_true']
        tauto
  case COMPANY =>
    split at h
    · exact absurd h (setError_ne_nil _ _ _)
    next hcond2 =>
      split at h
      · exact absurd h (setError_ne_nil _ _ _)
      next hcond1 =>
        simp only [Bool.or_eq_true, not_or, Bool.not_eq_true, Bool.not_eq_false, not_not] at hcond1 hcond2
        simp only [scopeExclusivitySpec, hst, Bool.and_eq_true, Bool.not_eq_true']
        tauto
  case BRANCH =>
    split at h
    · exact absurd h (setError_ne_nil _ _ _)
    next hcond2 =>
      split at h
      · exact absurd h (setError_ne_nil _ _ _)
      next hcond1 =>
        simp only [Bool.or_eq_true, not_or, Bool.not_eq_true, Bool.not_eq_false, not_not] at hcond1 hcond2
        simp only [scopeExclusivitySpec, hst, Bool.and_eq_true, Bool.not_eq_true']
        tauto
  case DEPARTMENT =>
    split at h
    · exact absurd h (setError_ne_nil _ _ _)
    next hcond2 =>
      split at h
      · exact absurd h (setError_ne_nil _ _ _)
      next hcond1 =>
        simp only [Bool.or_eq_true, not_or, Bool.not_eq_true, Bool.not_eq_false, not_not] at hcond1 hcond2
        simp only [scopeExclusivitySpec, hst, Bool.and_eq_true, Bool.not_eq_true']
        tauto

lemma entityCoherence_ne_nil_of_not_spec (d : UserScopeData) (st : ScopeTypeEnum)
    (hst : d.scope_type = some st) (e : List (String × String))
    (hspec : scopeExclusivitySpec d = false) :
    entityCoherenceErrors d st e ≠ [] := by
  intro hnil
  rw [entityCoherence_empty_spec d st hst e hnil] at hspec
  cases hspec

/-- **C9** (status: corrected).  (i) Whenever the validator accepts, exactly
the organizational-unit identifier matching `scope_type` is populated (none
for GLOBAL).  (ii) For roles that are allowed to reach the coherence check
(everything except Colaborador = 4 and Guest = 5), any mismatch is rejected
as an `EntityValidationError`.  The unrestricted claim — every mismatch is a
*validation* error — fails for roles 4 and 5, which are rejected earlier
with a `BusinessRuleError` (see the counterexample). -/
theorem scope_exclusivity_amended :
    (∀ (d : UserScopeData) (r : Int),
      validate_user_scope_data d r = .ok → scopeExclusivitySpec d = true)
    ∧ (∀ (d : UserScopeData) (r : Int), r ≠ 4 → r ≠ 5 →
      d.user_id ≠ none → d.scope_type ≠ none →
      scopeExclusivitySpec d = false →
      (validate_user_scope_data d r).isValidationError = true) := by
  constructor
  · intro d r h
    rcases hst : d.scope_type with _ | st
    · exfalso
      unfold validate_user_scope_data at h
      dsimp only at h
      rw [hst, if_pos (show (none : Option ScopeTypeEnum) = none from rfl),
        if_pos (setError_ne_nil _ _ _)] at h
      simp at h
    · by_cases hu : d.user_id = none
      · exfalso
        unfold validate_user_scope_data at h
        dsimp only at h
        rw [if_pos hu, hst,
          if_neg (show ¬((some st : Option ScopeTypeEnum) = none) by simp),
          if_pos (setError_ne_nil _ _ _)] at h
        simp at h
      · rw [validate_eq_of_present d r hu st hst] at h
        split at h
        · simp at h
        · split at h
          · simp at h
          next hcond =>
            exact entityCoherence_empty_spec d st hst _ (not_not.mp hcond)
  · intro d r h4 h5 hu hsc hspec
    obtain ⟨st, hst⟩ := Option.ne_none_iff_exists'.mp hsc
    rw [validate_eq_of_present d r hu st hst,
      if_neg (show ¬(r = 4 ∨ r = 5) by tauto),
      if_pos (entityCoherence_ne_nil_of_not_spec d st hst _ hspec)]
    rfl

/-- Counterexample for C9 as stated: a COMPANY scope with a populated
`branch_id` targeted at a Colaborador (role 4) is a mismatch, yet it is
rejected with a `BusinessRuleError`, not a validation error. -/
theorem scope_mismatch_error_kind_counterexample :
    scopeExclusivitySpec ⟨some 1, some .COMPANY, none, none, some 2, none⟩ = false
    ∧ (validate_user_scope_data
        ⟨some 1, some .COMPANY, none, none, some 2, none⟩ 4).isValidationError = false
    ∧ (validate_user_scope_data
        ⟨some 1, some .COMPANY, none, none, some 2, none⟩ 4).isBusinessRuleError = true := by
  decide

/-- Witness for C9 (amended): for an Admin (role 1), a COMPANY scope with a
populated `branch_id` instead of `company_id` is rejected as a validation
error. -/
theorem scope_exclusivity_amended_witness :
    scopeExclusivitySpec ⟨some 1, some .COMPANY, none, none, some 2, none⟩ = false ∧
    (validate_user_scope_data
      ⟨some 1, some .COMPANY, none, none, some 2, none⟩ 1).isValidationError = true :=
  ⟨by decide,
    scope_exclusivity_amended.2 ⟨some 1, some .COMPANY, none, none, some 2, none⟩ 1
      (by decide) (by decide) (by decide) (by decide) (by decide)⟩

/-- **C7** (status: corrected).  Only Colaborador (4) and Guest (5) are
rejected with a `BusinessRuleError` when any scope is created for them; a
Gestor (3) with a non-DEPARTMENT scope and a Gerente (2) with a scope other
than BUSINESS_GROUP/COMPANY/BRANCH are rejected with an
`EntityValidationError` instead — contradicting the claim that all three
cases raise a `BusinessRuleError` (see the counterexample). -/
theorem role_scope_error_kinds :
    (∀ (d : UserScopeData) (r : Int), d.user_id ≠ none → d.scope_type ≠ none →
      (r = 4 ∨ r = 5) →
      validate_user_scope_data d r
        = .businessRuleError
            ("Los usuarios con rol " ++ toString r ++
              " (Colaborador/Guest) no pueden tener scopes asignados"))
    ∧ (∀ (d : UserScopeData) (st : ScopeTypeEnum), d.user_id ≠ none →
      d.scope_type = some st → st ≠ .DEPARTMENT →
      (validate_user_scope_data d 3).isValidationError = true)
    ∧ (∀ (d : UserScopeData) (st : ScopeTypeEnum), d.user_id ≠ none →
      d.scope_type = some st →
      ¬(st = .BUSINESS_GROUP ∨ st = .COMPANY ∨ st = .BRANCH) →
      (validate_user_scope_data d 2).isValidationError = true) := by
  refine ⟨?_, ?_, ?_⟩
  · intro d r hu hsc hr
    obtain ⟨st, hst⟩ := Option.ne_none_iff_exists'.mp hsc
    rw [validate_eq_of_present d r hu st hst, if_pos hr]
  · intro d st hu hst hstD
    have hrole : roleScopeErrors 3 st [] ≠ [] := by
      unfold roleScopeErrors
      dsimp only
      rw [if_neg (show ¬((3 : Int) = 2 ∧ _) from fun hcc => absurd hcc.1 (by decide)),
        if_pos ⟨rfl, hstD⟩]
      exact setError_ne_nil _ _ _
    rw [validate_eq_of_present d 3 hu st hst,
      if_neg (show ¬((3 : Int) = 4 ∨ (3 : Int) = 5) by decide),
      if_pos (entityCoherenceErrors_ne_nil d st _ hrole)]
    rfl
  · intro d st hu hst hstM
    have hrole : roleScopeErrors 2 st [] ≠ [] := by
      unfold roleScopeErrors
      dsimp only
      rw [if_neg (show ¬((2 : Int) = 3 ∧ _) from fun hcc => absurd hcc.1 (by decide)),
        if_pos ⟨rfl, hstM⟩]
      exact setError_ne_nil _ _ _
    rw [validate_eq_of_present d 2 hu st hst,
      if_neg (show ¬((2 : Int) = 4 ∨ (2 : Int) = 5) by decide),
      if_pos (entityCoherenceErrors_ne_nil d st _ hrole)]
    rfl

/-- Counterexample for C7 as stated: a structurally well-formed COMPANY scope
for a Gestor (role 3) is rejected with an `EntityValidationError`, not the
`BusinessRuleError` the claim requires. -/
theorem gestor_wrong_scope_error_kind_counterexample :
    (validate_user_scope_data
      ⟨some 1, some .COMPANY, none, some 3, none, none⟩ 3).isBusinessRuleError = false
    ∧ (validate_user_scope_data
      ⟨some 1, some .COMPANY, none, some 3, none, none⟩ 3).isValidationError = true := by
  decide

/-- Witness for C7 (amended), at concrete inputs: Colaborador gets the
business-rule rejection; Gestor and Gerente with wrong scope types get
validation errors. -/
theorem role_scope_error_kinds_witness :
    validate_user_scope_data ⟨some 1, some .DEPARTMENT, none, none, none, some 4⟩ 4
      = .businessRuleError
          ("Los usuarios con rol " ++ toString (4 : Int) ++
            " (Colaborador/Guest) no pueden tener scopes asignados")
    ∧ (validate_user_scope_data
        ⟨some 1, some .GLOBAL, none, none, none, none⟩ 3).isValidationError = true
    ∧ (validate_user_scope_data
        ⟨some 1, some .DEPARTMENT, none, none, none, some 4⟩ 2).isValidationError = true :=
  ⟨role_scope_error_kinds.1 ⟨some 1, some .DEPARTMENT, none, none, none, some 4⟩ 4
      (by decide) (by decide) (Or.inl rfl),
    role_scope_error_kinds.2.1 ⟨some 1, some .GLOBAL, none, none, none, none⟩ .GLOBAL
      (by decide) rfl (by decide),
    role_scope_error_kinds.2.2 ⟨some 1, some .DEPARTMENT, none, none, none, some 4⟩ .DEPARTMENT
      (by decide) rfl (by decide)⟩

/-! ### Cycle guard claims (C5, C8) -/

/-- For a non-zero `nodeId`, the two hierarchy walks succeed on exactly the
same inputs (their error labels differ, their acceptance behavior does not). -/
lemma walk_ok_agree (g : Nat → Option (Option Nat)) (n : Nat) (hn : n ≠ 0) :
    ∀ (visited : List Nat) (current depth : Nat),
      (deptCycleWalk g (some n) visited current depth = .ok
        ↔ empCycleWalk g n visited current depth = .ok) := by
  intro visited current depth
  induction visited, current, depth using deptCycleWalk.induct g (some n) with
  | case1 visited current depth hmem =>
    rw [deptCycleWalk.eq_def, empCycleWalk.eq_def]
    simp only [if_pos hmem]
    simp
  | case2 visited current depth hmem hself =>
    have hcn : current = n := by
      simp [deptSelfCheck, hn] at hself
      exact hself
    rw [deptCycleWalk.eq_def, empCycleWalk.eq_def]
    simp only [if_neg hmem, if_pos hself, if_pos hcn]
    simp
  | case3 visited current depth hmem hself d1 hdepth =>
    have hcn : ¬ (current = n) := by
      simp [deptSelfCheck, hn] at hself
      exact hself
    rw [deptCycleWalk.eq_def, empCycleWalk.eq_def]
    simp only [if_neg hmem, if_neg hself, if_neg hcn, if_pos hdepth]
    simp
  | case4 visited current depth hmem hself d1 hdepth hg =>
    have hcn : ¬ (current = n) := by
      simp [deptSelfCheck, hn] at hself
      exact hself
    rw [deptCycleWalk.eq_def, empCycleWalk.eq_def]
    simp only [if_neg hmem, if_neg hself, if_neg hcn, if_neg hdepth, hg]
  | case5 visited current depth hmem hself d1 hdepth hg =>
    have hcn : ¬ (current = n) := by
      simp [deptSelfCheck, hn] at hself
      exact hself
    rw [deptCycleWalk.eq_def, empCycleWalk.eq_def]
    simp only [if_neg hmem, if_neg hself, if_neg hcn, if_neg hdepth, hg]
  | case6 visited current depth hmem hself v1 d1 hdepth p hg ih =>
    have hcn : ¬ (current = n) := by
      simp [deptSelfCheck, hn] at hself
      exact hself
    rw [deptCycleWalk.eq_def, empCycleWalk.eq_def]
    simp only [if_neg hmem, if_neg hself, if_neg hcn, if_neg hdepth, hg]
    exact ih

/-- **C5** (status: corrected).  The two cycle guards do *not* behave
identically: on creation (`nodeId` null) the employee guard returns without
walking at all (first conjunct), while the department guard still walks the
proposed parent's ancestry and detects a cycle there (third conjunct, on a
self-looping parent).  For updates (`nodeId` non-null and non-zero) the two
guards accept exactly the same links (second conjunct). -/
theorem cycle_guard_hierarchies_differ :
    (∀ (g : Nat → Option (Option Nat)) (p : Nat),
      emp_validate_no_circular_supervisor g none p = .ok)
    ∧ (∀ (g : Nat → Option (Option Nat)) (n p : Nat), n ≠ 0 →
      (dept_validate_no_circular_reference g (some n) p = .ok
        ↔ emp_validate_no_circular_supervisor g (some n) p = .ok))
    ∧ dept_validate_no_circular_reference (fun _ => some (some 1)) none 1
        = .circularReference := by
  refine ⟨fun g p => rfl, ?_, ?_⟩
  · intro g n p hn
    unfold dept_validate_no_circular_reference emp_validate_no_circular_supervisor
    dsimp only
    by_cases hnp : n = p
    · subst hnp
      rw [if_pos rfl, deptCycleWalk.eq_def]
      have hsc : deptSelfCheck (some n) n = true := by simp [deptSelfCheck, hn]
      simp only [List.not_mem_nil, if_false, if_pos hsc]
      simp
    · rw [if_neg hnp]
      exact walk_ok_agree g n hn [] p 0
  · simp [dept_validate_no_circular_reference, deptCycleWalk, deptSelfCheck,
      MAX_HIERARCHY_DEPTH]

/-- Counterexample for C5 as stated: the proposed parent `1` is its own
parent (`1 → 1`, a cyclic ancestry), yet on creation (`nodeId` null) the
employee guard accepts while the department guard reports the circular
reference. -/
theorem cycle_guard_creation_counterexample :
    emp_validate_no_circular_supervisor (fun _ => some (some 1)) none 1 = .ok
    ∧ dept_validate_no_circular_reference (fun _ => some (some 1)) none 1
        = .circularReference := by
  constructor
  · rfl
  · simp [dept_validate_no_circular_reference, deptCycleWalk, deptSelfCheck,
      MAX_HIERARCHY_DEPTH]

/-- Witness for C5 (amended): on a store where node `7` is a root, the
update-time guards agree, so the department link is accepted because the
employee one is. -/
theorem cycle_guard_hierarchies_differ_witness :
    dept_validate_no_circular_reference (fun _ => some none) (some 5) 7 = .ok :=
  (cycle_guard_hierarchies_differ.2.1 (fun _ => some none) 5 7 (by decide)).mpr
    (by simp [emp_validate_no_circular_supervisor, empCycleWalk, MAX_HIERARCHY_DEPTH])

lemma deptWalk_ok_chain (g : Nat → Option (Option Nat)) :
    ∀ (l : List Nat) (a : Nat) (visited : List Nat) (depth : Nat),
      linkedChainB g (a :: l) = true → (a :: l).Nodup →
      (∀ x ∈ a :: l, x ∉ visited) →
      depth + (a :: l).length ≤ MAX_HIERARCHY_DEPTH →
      deptCycleWalk g none visited a depth = .ok := by
  intro l
  induction l with
  | nil =>
    intro a visited depth hch hnd hdis hlen
    have hga : g a = some none := by simpa [linkedChainB] using hch
    have hmem : a ∉ visited := hdis a (by simp)
    have hd : ¬ (depth + 1 > MAX_HIERARCHY_DEPTH) := by
      simp only [List.length_cons, List.length_nil] at hlen
      omega
    rw [deptCycleWalk.eq_def]
    simp only [deptSelfCheck, Bool.false_eq_true, if_false, if_neg hmem, if_neg hd, hga]
  | cons b rest ih =>
    intro a visited depth hch hnd hdis hlen
    have hch' : g a = some (some b) ∧ linkedChainB g (b :: rest) = true := by
      simpa [linkedChainB] using hch
    have hmem : a ∉ visited := hdis a (by simp)
    have hd : ¬ (depth + 1 > MAX_HIERARCHY_DEPTH) := by
      simp only [List.length_cons] at hlen
      omega
    rw [deptCycleWalk.eq_def]
    simp only [deptSelfCheck, Bool.false_eq_true, if_false, if_neg hmem, if_neg hd, hch'.1]
    refine ih b (a :: visited) (depth + 1) hch'.2 hnd.of_cons ?_ ?_
    · intro x hx
      have hxa : x ≠ a := fun he => (List.nodup_cons.mp hnd).1 (he ▸ hx)
      have hxv : x ∉ visited := hdis x (List.mem_cons_of_mem a hx)
      simp only [List.mem_cons, not_or]
      exact ⟨hxa, hxv⟩
    · simp only [List.length_cons] at hlen ⊢
      omega

lemma deptWalk_depth_chain (g : Nat → Option (Option Nat)) :
    ∀ (l : List Nat) (a : Nat) (visited : List Nat) (depth : Nat),
      linkedChainB g (a :: l) = true → (a :: l).Nodup →
      (∀ x ∈ a :: l, x ∉ visited) →
      depth + (a :: l).length = MAX_HIERARCHY_DEPTH + 1 →
      deptCycleWalk g none visited a depth = .depthExceeded := by
  intro l
  induction l with
  | nil =>
    intro a visited depth hch hnd hdis hlen
    have hmem : a ∉ visited := hdis a (by simp)
    have hd : depth + 1 > MAX_HIERARCHY_DEPTH := by
      simp only [List.length_cons, List.length_nil] at hlen
      omega
    rw [deptCycleWalk.eq_def]
    simp only [deptSelfCheck, Bool.false_eq_true, if_false, if_neg hmem, if_pos hd]
  | cons b rest ih =>
    intro a visited depth hch hnd hdis hlen
    have hch' : g a = some (some b) ∧ linkedChainB g (b :: rest) = true := by
      simpa [linkedChainB] using hch
    have hmem : a ∉ visited := hdis a (by simp)
    have hd : ¬ (depth + 1 > MAX_HIERARCHY_DEPTH) := by
      simp only [List.length_cons] at hlen
      omega
    rw [deptCycleWalk.eq_def]
    simp only [deptSelfCheck, Bool.false_eq_true, if_false, if_neg hmem, if_neg hd, hch'.1]
    refine ih b (a :: visited) (depth + 1) hch'.2 hnd.of_cons ?_ ?_
    · intro x hx
      have hxa : x ≠ a := fun he => (List.nodup_cons.mp hnd).1 (he ▸ hx)
      have hxv : x ∉ visited := hdis x (List.mem_cons_of_mem a hx)
      simp only [List.mem_cons, not_or]
      exact ⟨hxa, hxv⟩
    · simp only [List.length_cons] at hlen ⊢
      omega

lemma empWalk_ok_chain (g : Nat → Option (Option Nat)) (n : Nat) :
    ∀ (l : List Nat) (a : Nat) (visited : List Nat) (depth : Nat),
      linkedChainB g (a :: l) = true → (a :: l).Nodup →
      (∀ x ∈ a :: l, x ≠ n) →
      (∀ x ∈ a :: l, x ∉ visited) →
      depth + (a :: l).length ≤ MAX_HIERARCHY_DEPTH →
      empCycleWalk g n visited a depth = .ok := by
  intro l
  induction l with
  | nil =>
    intro a visited depth hch hnd hxn hdis hlen
    have hga : g a = some none := by simpa [linkedChainB] using hch
    have hmem : a ∉ visited := hdis a (by simp)
    have hd : ¬ (depth + 1 > MAX_HIERARCHY_DEPTH) := by
      simp only [List.length_cons, List.length_nil] at hlen
      omega
    rw [empCycleWalk.eq_def]
    simp only [if_neg hmem, if_neg (hxn a (by simp)), if_neg hd, hga]
  | cons b rest ih =>
    intro a visited depth hch hnd hxn hdis hlen
    have hch' : g a = some (some b) ∧ linkedChainB g (b :: rest) = true := by
      simpa [linkedChainB] using hch
    have hmem : a ∉ visited := hdis a (by simp)
    have hd : ¬ (depth + 1 > MAX_HIERARCHY_DEPTH) := by
      simp only [List.length_cons] at hlen
      omega
    rw [empCycleWalk.eq_def]
    simp only [if_neg hmem, if_neg (hxn a (by simp)), if_neg hd, hch'.1]
    refine ih b (a :: visited) (depth + 1) hch'.2 hnd.of_cons
      (fun x hx => hxn x (List.mem_cons_of_mem a hx)) ?_ ?_
    · intro x hx
      have hxa : x ≠ a := fun he => (List.nodup_cons.mp hnd).1 (he ▸ hx)
      have hxv : x ∉ visited := hdis x (List.mem_cons_of_mem a hx)
      simp only [List.mem_cons, not_or]
      exact ⟨hxa, hxv⟩
    · simp only [List.length_cons] at hlen ⊢
      omega

lemma empWalk_depth_chain (g : Nat → Option (Option Nat)) (n : Nat) :
    ∀ (l : List Nat) (a : Nat) (visited : List Nat) (depth : Nat),
      linkedChainB g (a :: l) = true → (a :: l).Nodup →
      (∀ x ∈ a :: l, x ≠ n) →
      (∀ x ∈ a :: l, x ∉ visited) →
      depth + (a :: l).length = MAX_HIERARCHY_DEPTH + 1 →
      empCycleWalk g n visited a depth = .depthExceeded := by
  intro l
  induction l with
  | nil =>
    intro a visited depth hch hnd hxn hdis hlen
    have hmem : a ∉ visited := hdis a (by simp)
    have hd : depth + 1 > MAX_HIERARCHY_DEPTH := by
      simp only [List.length_cons, List.length_nil] at hlen
      omega
    rw [empCycleWalk.eq_def]
    simp only [if_neg hmem, if_neg (hxn a (by simp)), if_pos hd]
  | cons b rest ih =>
    intro a visited depth hch hnd hxn hdis hlen
    have hch' : g a = some (some b) ∧ linkedChainB g (b :: rest) = true := by
      simpa [linkedChainB] using hch
    have hmem : a ∉ visited := hdis a (by simp)
    have hd : ¬ (depth + 1 > MAX_HIERARCHY_DEPTH) := by
      simp only [List.length_cons] at hlen
      omega
    rw [empCycleWalk.eq_def]
    simp only [if_neg hmem, if_neg (hxn a (by simp)), if_neg hd, hch'.1]
    refine ih b (a :: visited) (depth + 1) hch'.2 hnd.of_cons
      (fun x hx => hxn x (List.mem_cons_of_mem a hx)) ?_ ?_
    · intro x hx
      have hxa : x ≠ a := fun he => (List.nodup_cons.mp hnd).1 (he ▸ hx)
      have hxv : x ∉ visited := hdis x (List.mem_cons_of_mem a hx)
      simp only [List.mem_cons, not_or]
      exact ⟨hxa, hxv⟩
    · simp only [List.length_cons] at hlen ⊢
      omega

/-- **C8** (status: confirmed).  With the fixed depth bound
`MAX_HIERARCHY_DEPTH = 10`, on a cycle-free linked ancestry chain starting at
the proposed parent, both guards succeed when the chain has at most 10 nodes
and fail with the depth-exceeded error when it has 11 nodes (department on
creation; employee guard for a node `n` outside the chain). -/
theorem depth_bound_chain_behavior (g : Nat → Option (Option Nat)) (a : Nat)
    (l : List Nat) (n : Nat)
    (hch : linkedChainB g (a :: l) = true) (hnd : (a :: l).Nodup)
    (hn : n ∉ a :: l) :
    ((a :: l).length ≤ MAX_HIERARCHY_DEPTH →
      dept_validate_no_circular_reference g none a = .ok
      ∧ emp_validate_no_circular_supervisor g (some n) a = .ok)
    ∧ ((a :: l).length = MAX_HIERARCHY_DEPTH + 1 →
      dept_validate_no_circular_reference g none a = .depthExceeded
      ∧ emp_validate_no_circular_supervisor g (some n) a = .depthExceeded) := by
  have hna : ¬ (n = a) := fun he => hn (he ▸ List.mem_cons_self a l)
  have hxn : ∀ x ∈ a :: l, x ≠ n := fun x hx he => hn (he ▸ hx)
  constructor
  · intro hlen
    constructor
    · exact deptWalk_ok_chain g l a [] 0 hch hnd (by simp) (by simpa using hlen)
    · unfold emp_validate_no_circular_supervisor
      dsimp only
      rw [if_neg hna]
      exact empWalk_ok_chain g n l a [] 0 hch hnd hxn (by simp) (by simpa using hlen)
  · intro hlen
    constructor
    · exact deptWalk_depth_chain g l a [] 0 hch hnd (by simp) (by simpa using hlen)
    · unfold emp_validate_no_circular_supervisor
      dsimp only
      rw [if_neg hna]
      exact empWalk_depth_chain g n l a [] 0 hch hnd hxn (by simp) (by simpa using hlen)

/-- Witness for C8: a 3-node chain passes both guards; an 11-node chain
fails both with the depth-exceeded error. -/
theorem depth_bound_chain_behavior_witness :
    (dept_validate_no_circular_reference
        (fun i => if i < 3 then some (some (i + 1)) else some none) none 1 = .ok
      ∧ emp_validate_no_circular_supervisor
        (fun i => if i < 3 then some (some (i + 1)) else some none) (some 99) 1 = .ok)
    ∧ (dept_validate_no_circular_reference
        (fun i => if 1 ≤ i ∧ i ≤ 10 then some (some (i + 1))
          else if i = 11 then some none else none) none 1 = .depthExceeded
      ∧ emp_validate_no_circular_supervisor
        (fun i => if 1 ≤ i ∧ i ≤ 10 then some (some (i + 1))
          else if i = 11 then some none else none) (some 99) 1 = .depthExceeded) :=
  ⟨(depth_bound_chain_behavior _ 1 [2, 3] 99
      (by decide) (by decide) (by decide)).1 (by decide),
    (depth_bound_chain_behavior _ 1 [2, 3, 4, 5, 6, 7, 8, 9, 10, 11] 99
      (by decide) (by decide) (by decide)).2 (by decide)⟩
